import Mathlib

/-!
Verification of the bounded agent while-loop (src/agent.py, src/tools.py).

The development shallowly embeds the Python source:
* JSON values are modelled by `JsonVal` (numbers as `Int`; the claims never
  touch floating point payloads).
* `ToolResult` mirrors the `TypedDict` in tools.py: success flag, message,
  optional structured payload (a JSON object).
* A registered tool (`Tool`) carries name, description, parameter schema and
  its `execute` operation; a Python exception raised by `execute` is modelled
  as `Except.error` carrying the stringified error.
* The OpenAI chat message objects and the plain `dict` messages the loop
  appends are distinguished by `Msg`, because attribute access
  (`last_message.role`, agent.py line 101) succeeds only on the objects and
  raises `AttributeError` on a plain dict.
* The language model is an oracle `llm : List Msg → AssistantMsg` mapping the
  current transcript to the next assistant message (agent.py
  `_get_llm_response`, treated as an external capability).
* `json.dumps` of a tool result is modelled by storing the result's JSON value
  (`ToolResult.toJson`) as the content of the tool turn; the Python standard
  library string round-trip is not re-verified here, the serialized structure
  is.
-/

namespace AgentLoop

/-- JSON values: the payloads carried by tool arguments, tool results and
message contents. Numbers are modelled as integers. -/
inductive JsonVal where
  | null : JsonVal
  | bool (b : Bool) : JsonVal
  | num (n : Int) : JsonVal
  | str (s : String) : JsonVal
  | arr (items : List JsonVal) : JsonVal
  | obj (fields : List (String × JsonVal)) : JsonVal
deriving Repr

/-- Result from a tool execution (tools.py `ToolResult`):
`success: bool`, `message: str`, `data: Optional[Dict[str, Any]]`. -/
structure ToolResult where
  success : Bool
  message : String
  data : Option (List (String × JsonVal))
deriving Repr

/-- First-match key lookup in a JSON object's field list. -/
def jsonGet : List (String × JsonVal) → String → Option JsonVal
  | [], _ => none
  | p :: rest, k => if p.1 = k then some p.2 else jsonGet rest k

/-- The JSON value `json.dumps` serializes for a `ToolResult`
(agent.py line 87): an object with the keys success, message, data,
where a missing payload is the JSON null. -/
def ToolResult.toJson (r : ToolResult) : JsonVal :=
  .obj [("success", .bool r.success),
        ("message", .str r.message),
        ("data", match r.data with
                 | none => .null
                 | some fields => .obj fields)]

/-- Parsing a serialized tool result back into its
success / message / data structure. -/
def ToolResult.fromJson? : JsonVal → Option ToolResult
  | .obj fields =>
      match jsonGet fields "success", jsonGet fields "message",
            jsonGet fields "data" with
      | some (.bool b), some (.str m), some .null => some ⟨b, m, none⟩
      | some (.bool b), some (.str m), some (.obj fs) => some ⟨b, m, some fs⟩
      | _, _, _ => none
  | _ => none

/-- A tool registered with the agent (tools.py `Tool`): name, description and
parameter schema advertised to the model, plus the asynchronous `execute`
operation. `execute` consumes the keyword arguments deserialized from the
call's argument string; raising an exception (of any kind) is modelled as
`Except.error` with the stringified error. -/
structure Tool where
  name : String
  description : String
  parameters : JsonVal
  execute : List (String × JsonVal) → Except String ToolResult

/-- tools.py `Tool.to_function_schema`: the OpenAI function-calling schema
dict for one tool. -/
def Tool.toFunctionSchema (t : Tool) : JsonVal :=
  .obj [("name", .str t.name),
        ("description", .str t.description),
        ("parameters", t.parameters)]

/-- Python dict assignment `d[k] = v` on an association list: a present key
keeps its original position and has its value replaced; an absent key is
appended at the end. This is exactly CPython's insertion-order-preserving
dict update used by the comprehension in agent.py line 31. -/
def dictInsert (d : List (String × Tool)) (k : String) (v : Tool) :
    List (String × Tool) :=
  if d.any (fun p => p.1 = k) then
    d.map (fun p => if p.1 = k then (k, v) else p)
  else d ++ [(k, v)]

/-- agent.py line 31: `self.tools = {tool.name: tool for tool in tools}` —
the registry built by folding Python dict assignment over the tool list. -/
def buildRegistry (tools : List Tool) : List (String × Tool) :=
  tools.foldl (fun d t => dictInsert d t.name t) []

/-- Dict key lookup `k in d` / `d[k]`: first entry with the key. -/
def lookupTool : List (String × Tool) → String → Option Tool
  | [], _ => none
  | p :: rest, k => if p.1 = k then some p.2 else lookupTool rest k

/-- agent.py line 134: `self.tools.values()` mapped through
`to_function_schema` — the schema list sent to the model. -/
def registrySchemas (tools : List Tool) : List JsonVal :=
  (buildRegistry tools).map (fun p => p.2.toFunctionSchema)

/-- A model-requested tool call (one element of the assistant message's
`tool_calls`): call id, function name, and the outcome of
`json.loads(tool_call.function.arguments)` — `Except.error` when
deserialization of the argument string raises. -/
structure ToolCall where
  id : String
  name : String
  arguments : Except String (List (String × JsonVal))

/-- agent.py `_execute_tool` (lines 153-187): unknown names short-circuit to a
failed result; otherwise argument deserialization and `execute` run inside a
`try` whose `except` converts any exception into a failed result carrying the
stringified error. The function is total: no outcome propagates an
exception. -/
def executeTool (registry : List (String × Tool)) (tc : ToolCall) :
    ToolResult :=
  match lookupTool registry tc.name with
  | none => ⟨false, "Unknown tool: " ++ tc.name, none⟩
  | some tool =>
      match tc.arguments with
      | .error e => ⟨false, "Error executing " ++ tc.name ++ ": " ++ e, none⟩
      | .ok args =>
          match tool.execute args with
          | .error e =>
              ⟨false, "Error executing " ++ tc.name ++ ": " ++ e, none⟩
          | .ok result => result

/-- The content of an assistant message: Python `None`, a plain string, or a
list of structured parts. A part is dict-like and may or may not carry a
`text` field (agent.py lines 104-111), modelled as `Option String`. -/
inductive MsgContent where
  | null : MsgContent
  | str (s : String) : MsgContent
  | parts (ps : List (Option String)) : MsgContent
deriving Repr

/-- Python truthiness of `message.content`: `None`, the empty string and the
empty list are falsy; everything else is truthy. -/
def MsgContent.truthy : MsgContent → Bool
  | .null => false
  | .str s => !(s == "")
  | .parts ps => !ps.isEmpty

/-- agent.py lines 104-111: extract the final answer text. A plain string is
used verbatim; a list of parts is joined from each part's `text` field, a
part without one contributing the empty string. Only ever reached with
truthy content, so `null` is mapped to the empty string. -/
def MsgContent.extractText : MsgContent → String
  | .null => ""
  | .str s => s
  | .parts ps => ps.foldl (fun acc p => acc ++ p.getD "") ""

/-- The assistant message object returned by the model
(`response.choices[0].message`): content plus requested tool calls.
`tool_calls` is `Optional[List]` in the source; `None` and `[]` behave
identically under the guard `message.tool_calls and len(message.tool_calls)
> 0`, so both are modelled as the empty list. -/
structure AssistantMsg where
  content : MsgContent
  tool_calls : List ToolCall

/-- A transcript entry. The loop mixes two shapes: plain Python dicts (the
system, user and tool turns it builds itself) and the assistant message
objects appended straight from the API response. Attribute access
`last_message.role` (agent.py line 101) succeeds only on the objects; on a
plain dict it raises `AttributeError`. -/
inductive Msg where
  | dict (role : String) (content : JsonVal) (tool_call_id : Option String) :
      Msg
  | assistant (m : AssistantMsg) : Msg

/-- Configuration options for the agent (agent.py `AgentOptions`). The
sampling temperature is only forwarded to the model call, never read by the
loop, and is omitted. -/
structure AgentOptions where
  model : String := "gpt-4"
  max_iterations : Nat := 10
  system_prompt : String := ""

/-- The loop's mutable state: transcript, tools-used log, completion flag and
iteration counter (agent.py lines 48-61). -/
structure LoopState where
  messages : List Msg
  tools_used : List String
  done : Bool
  iteration : Nat

/-- The tool turn appended after dispatching one call (agent.py lines 83-89):
role tool, the call id, and the serialized `ToolResult` as content. -/
def toolMsg (tc : ToolCall) (r : ToolResult) : Msg :=
  Msg.dict "tool" r.toJson (some tc.id)

/-- agent.py lines 80-89: dispatch every requested call in request order,
appending each call's tool turn to the transcript and its requested name to
the tools-used log. -/
def dispatchCalls (registry : List (String × Tool)) :
    List ToolCall → List Msg → List String → List Msg × List String
  | [], msgs, used => (msgs, used)
  | tc :: rest, msgs, used =>
      let r := executeTool registry tc
      dispatchCalls registry rest (msgs ++ [toolMsg tc r]) (used ++ [tc.name])

/-- One pass of the loop body (agent.py lines 63-98): query the model on the
current transcript, append its message, then either dispatch the requested
tool calls (leaving `done` untouched), or set `done` when the message has
truthy content, or fall through; finally increment the iteration counter. -/
def stepIter (registry : List (String × Tool)) (llm : List Msg → AssistantMsg)
    (s : LoopState) : LoopState :=
  match (llm s.messages).tool_calls with
  | tc :: rest =>
      ⟨(dispatchCalls registry (tc :: rest)
          (s.messages ++ [Msg.assistant (llm s.messages)]) s.tools_used).1,
       (dispatchCalls registry (tc :: rest)
          (s.messages ++ [Msg.assistant (llm s.messages)]) s.tools_used).2,
       s.done, s.iteration + 1⟩
  | [] =>
      if (llm s.messages).content.truthy then
        ⟨s.messages ++ [Msg.assistant (llm s.messages)], s.tools_used, true,
         s.iteration + 1⟩
      else
        ⟨s.messages ++ [Msg.assistant (llm s.messages)], s.tools_used, s.done,
         s.iteration + 1⟩

/-- The while loop `while not done and iteration < max_iterations`, written
with explicit fuel. Each pass increments `iteration` by exactly one, so
`max_iterations` fuel from a fresh state never runs out before the guard
fails (`loopFuel_guard_false` below). -/
def loopFuel (registry : List (String × Tool)) (llm : List Msg → AssistantMsg)
    (maxIter : Nat) : Nat → LoopState → LoopState
  | 0, s => s
  | fuel + 1, s =>
      if s.done = false ∧ s.iteration < maxIter then
        loopFuel registry llm maxIter fuel (stepIter registry llm s)
      else s

/-- Number of passes of the loop body actually executed. -/
def loopFuelCount (registry : List (String × Tool))
    (llm : List Msg → AssistantMsg) (maxIter : Nat) :
    Nat → LoopState → Nat
  | 0, _ => 0
  | fuel + 1, s =>
      if s.done = false ∧ s.iteration < maxIter then
        loopFuelCount registry llm maxIter fuel (stepIter registry llm s) + 1
      else 0

/-- agent.py lines 48-57: the seed transcript — an optional system turn (only
when the system prompt is a non-empty string) followed by the user turn. -/
def initMessages (options : AgentOptions) (query : String) : List Msg :=
  (if options.system_prompt ≠ "" then
    [Msg.dict "system" (.str options.system_prompt) none]
   else []) ++ [Msg.dict "user" (.str query) none]

/-- The loop state on entry: seed transcript, no tools used, not done,
iteration zero. -/
def initState (options : AgentOptions) (query : String) : LoopState :=
  ⟨initMessages options query, [], false, 0⟩

/-- The loop state after the while loop has exited. -/
def finalState (tools : List Tool) (options : AgentOptions)
    (llm : List Msg → AssistantMsg) (query : String) : LoopState :=
  loopFuel (buildRegistry tools) llm options.max_iterations
    options.max_iterations (initState options query)

/-- Number of loop iterations a run actually executes. -/
def iterationsExecuted (tools : List Tool) (options : AgentOptions)
    (llm : List Msg → AssistantMsg) (query : String) : Nat :=
  loopFuelCount (buildRegistry tools) llm options.max_iterations
    options.max_iterations (initState options query)

/-- agent.py line 122: the fixed fallback string. -/
def fallbackMessage (maxIter : Nat) : String :=
  "Agent reached maximum iterations (" ++ toString maxIter ++
    ") without completing the task."

/-- The observable outcome of a run that returns: the returned text, the
logged metrics (`max_iterations_reached` is logged as 1 only in the fallback
branch, absent — false — otherwise), and the value written into
`hooks.metadata` under tools_used — `none` when that write never happens. -/
structure RunOutput where
  result : String
  total_iterations : Nat
  max_iterations_reached : Bool
  hooks_tools_used : Option (List String)
deriving Repr, DecidableEq

/-- agent.py `run` (lines 35-130): seed the transcript, run the while loop,
then inspect `messages[-1]`. The attribute access `last_message.role` raises
`AttributeError` when that entry is a plain dict (a tool turn, or the seed
user turn when the loop never ran); this uncaught exception is the
`Except.error` outcome. On an assistant object the run returns the extracted
text (writing the tools-used log into the hooks sink first) when the content
is truthy, and otherwise the fallback message — without touching hooks. -/
def run (tools : List Tool) (options : AgentOptions)
    (llm : List Msg → AssistantMsg) (query : String) :
    Except String RunOutput :=
  match (finalState tools options llm query).messages.getLast? with
  | none => .error "IndexError: list index out of range"
  | some (Msg.assistant m) =>
      if m.content.truthy then
        .ok ⟨m.content.extractText,
             (finalState tools options llm query).iteration, false,
             some (finalState tools options llm query).tools_used⟩
      else
        .ok ⟨fallbackMessage options.max_iterations,
             (finalState tools options llm query).iteration, true, none⟩
  | some (Msg.dict _ _ _) =>
      .error "AttributeError: dict object has no attribute role"

/-! ### Basic lemmas about dispatch and the loop body -/

theorem dispatchCalls_eq (registry : List (String × Tool)) :
    ∀ (calls : List ToolCall) (msgs : List Msg) (used : List String),
      dispatchCalls registry calls msgs used
        = (msgs ++ calls.map (fun c => toolMsg c (executeTool registry c)),
           used ++ calls.map ToolCall.name) := by
  intro calls
  induction calls with
  | nil => intro msgs used; simp [dispatchCalls]
  | cons tc rest ih => intro msgs used; simp [dispatchCalls, ih]

theorem stepIter_iteration (registry : List (String × Tool))
    (llm : List Msg → AssistantMsg) (s : LoopState) :
    (stepIter registry llm s).iteration = s.iteration + 1 := by
  cases hc : (llm s.messages).tool_calls with
  | nil =>
      simp only [stepIter, hc]
      split <;> rfl
  | cons tc rest => simp only [stepIter, hc]

theorem stepIter_toolsUsed (registry : List (String × Tool))
    (llm : List Msg → AssistantMsg) (s : LoopState) :
    (stepIter registry llm s).tools_used
      = s.tools_used ++ (llm s.messages).tool_calls.map ToolCall.name := by
  cases hc : (llm s.messages).tool_calls with
  | nil =>
      simp only [stepIter, hc, List.map_nil, List.append_nil]
      split <;> rfl
  | cons tc rest => simp only [stepIter, hc, dispatchCalls_eq]

theorem stepIter_toolBranch (registry : List (String × Tool))
    (llm : List Msg → AssistantMsg) (s : LoopState)
    (h : (llm s.messages).tool_calls ≠ []) :
    stepIter registry llm s
      = ⟨(s.messages ++ [Msg.assistant (llm s.messages)])
           ++ (llm s.messages).tool_calls.map
               (fun c => toolMsg c (executeTool registry c)),
         s.tools_used ++ (llm s.messages).tool_calls.map ToolCall.name,
         s.done, s.iteration + 1⟩ := by
  cases hc : (llm s.messages).tool_calls with
  | nil => exact absurd hc h
  | cons tc rest => simp only [stepIter, hc, dispatchCalls_eq]

theorem stepIter_contentBranch (registry : List (String × Tool))
    (llm : List Msg → AssistantMsg) (s : LoopState)
    (h1 : (llm s.messages).tool_calls = [])
    (h2 : (llm s.messages).content.truthy = true) :
    stepIter registry llm s
      = ⟨s.messages ++ [Msg.assistant (llm s.messages)], s.tools_used, true,
         s.iteration + 1⟩ := by
  simp only [stepIter, h1, h2, if_true]

theorem loopFuel_of_done (registry : List (String × Tool))
    (llm : List Msg → AssistantMsg) (maxIter fuel : Nat) (s : LoopState)
    (h : s.done = true) :
    loopFuel registry llm maxIter fuel s = s := by
  cases fuel with
  | zero => rfl
  | succ f => simp [loopFuel, h]

theorem loopFuel_iteration_le (registry : List (String × Tool))
    (llm : List Msg → AssistantMsg) (maxIter fuel : Nat) :
    ∀ s : LoopState, s.iteration ≤ maxIter →
      (loopFuel registry llm maxIter fuel s).iteration ≤ maxIter := by
  induction fuel with
  | zero => intro s h; exact h
  | succ f ih =>
      intro s h
      by_cases hg : s.done = false ∧ s.iteration < maxIter
      · simp only [loopFuel, if_pos hg]
        exact ih _ (by rw [stepIter_iteration]; omega)
      · simp only [loopFuel, if_neg hg]; exact h

theorem loopFuel_iteration_eq_count (registry : List (String × Tool))
    (llm : List Msg → AssistantMsg) (maxIter fuel : Nat) :
    ∀ s : LoopState,
      (loopFuel registry llm maxIter fuel s).iteration
        = s.iteration + loopFuelCount registry llm maxIter fuel s := by
  induction fuel with
  | zero => intro s; simp [loopFuel, loopFuelCount]
  | succ f ih =>
      intro s
      by_cases hg : s.done = false ∧ s.iteration < maxIter
      · simp only [loopFuel, loopFuelCount, if_pos hg]
        rw [ih, stepIter_iteration]; omega
      · simp only [loopFuel, loopFuelCount, if_neg hg]; omega

/-! ### Registry lemmas: Python dict semantics of `buildRegistry` -/

/-- The last tool in the construction list bearing a given name. -/
def lastNamed (tools : List Tool) (n : String) : Option Tool :=
  (tools.filter (fun t => t.name = n)).getLast?

/-- The name advertised by a function schema dict. -/
def schemaName : JsonVal → Option String
  | .obj fields =>
      match jsonGet fields "name" with
      | some (.str s) => some s
      | _ => none
  | _ => none

/-- Number of registry entries stored under a given key. -/
def keyCount (d : List (String × Tool)) (n : String) : Nat :=
  (d.filter (fun p => p.1 = n)).length

theorem schemaName_toFunctionSchema (t : Tool) :
    schemaName t.toFunctionSchema = some t.name := rfl

theorem lookupTool_map_ne (d : List (String × Tool)) (k : String) (v : Tool)
    (n : String) (hne : n ≠ k) :
    lookupTool (d.map (fun p => if p.1 = k then (k, v) else p)) n
      = lookupTool d n := by
  induction d with
  | nil => rfl
  | cons p rest ih =>
      simp only [List.map_cons]
      by_cases hp : p.1 = k
      · rw [if_pos hp]
        show (if k = n then some v else _) = if p.1 = n then some p.2 else _
        rw [if_neg (fun h => hne h.symm), if_neg (fun h => hne (hp ▸ h).symm)]
        exact ih
      · rw [if_neg hp]
        show (if p.1 = n then some p.2 else _) = if p.1 = n then some p.2 else _
        by_cases hn : p.1 = n
        · rw [if_pos hn, if_pos hn]
        · rw [if_neg hn, if_neg hn]; exact ih

theorem lookupTool_map_self (d : List (String × Tool)) (k : String) (v : Tool)
    (hany : d.any (fun p => p.1 = k) = true) :
    lookupTool (d.map (fun p => if p.1 = k then (k, v) else p)) k = some v := by
  induction d with
  | nil => cases hany
  | cons p rest ih =>
      simp only [List.map_cons]
      by_cases hp : p.1 = k
      · rw [if_pos hp]
        show (if k = k then some v else _) = some v
        rw [if_pos rfl]
      · rw [if_neg hp]
        show (if p.1 = k then some p.2 else _) = some v
        rw [if_neg hp]
        apply ih
        simp only [List.any_cons] at hany
        rcases Bool.or_eq_true_iff.mp hany with h | h
        · exact absurd (of_decide_eq_true h) hp
        · exact h

theorem lookupTool_append (d d' : List (String × Tool)) (n : String) :
    lookupTool (d ++ d') n
      = match lookupTool d n with
        | some t => some t
        | none => lookupTool d' n := by
  induction d with
  | nil => rfl
  | cons p rest ih =>
      simp only [List.cons_append, lookupTool]
      by_cases hp : p.1 = n
      · rw [if_pos hp, if_pos hp]
      · rw [if_neg hp, if_neg hp]; exact ih

theorem lookupTool_of_any_false (d : List (String × Tool)) (k : String)
    (h : d.any (fun p => p.1 = k) = false) :
    lookupTool d k = none := by
  induction d with
  | nil => rfl
  | cons p rest ih =>
      simp only [List.any_cons, Bool.or_eq_false_iff] at h
      show (if p.1 = k then some p.2 else lookupTool rest k) = none
      rw [if_neg (fun hp => by simp [hp] at h)]
      exact ih h.2

theorem lookupTool_dictInsert (d : List (String × Tool)) (k : String)
    (v : Tool) (n : String) :
    lookupTool (dictInsert d k v) n
      = if n = k then some v else lookupTool d n := by
  unfold dictInsert
  by_cases hany : d.any (fun p => p.1 = k) = true
  · rw [if_pos hany]
    by_cases hn : n = k
    · subst hn; rw [if_pos rfl]; exact lookupTool_map_self d n v hany
    · rw [if_neg hn]; exact lookupTool_map_ne d k v n hn
  · rw [if_neg hany, lookupTool_append]
    by_cases hn : n = k
    · subst hn
      rw [lookupTool_of_any_false d n (Bool.not_eq_true _ ▸ hany), if_pos rfl]
      show (if n = n then some v else none) = some v
      rw [if_pos rfl]
    · rw [if_neg hn]
      rcases hdn : lookupTool d n with _ | t
      · show lookupTool [(k, v)] n = none
        show (if k = n then some v else none) = none
        rw [if_neg (fun h => hn h.symm)]
      · rfl

theorem buildRegistry_concat (ts : List Tool) (t : Tool) :
    buildRegistry (ts ++ [t]) = dictInsert (buildRegistry ts) t.name t := by
  unfold buildRegistry
  rw [List.foldl_append]
  rfl

theorem lookup_buildRegistry (ts : List Tool) (n : String) :
    lookupTool (buildRegistry ts) n = lastNamed ts n := by
  induction ts using List.reverseRecOn with
  | nil => rfl
  | append_singleton ts t ih =>
      rw [buildRegistry_concat, lookupTool_dictInsert, ih]
      unfold lastNamed
      rw [List.filter_append]
      by_cases hn : t.name = n
      · rw [if_pos hn.symm]
        have : List.filter (fun u => decide (u.name = n)) [t] = [t] := by
          simp [hn]
        rw [this, List.getLast?_concat]
      · rw [if_neg (fun h => hn h.symm)]
        have : List.filter (fun u => decide (u.name = n)) [t] = [] := by
          simp [hn]
        rw [this, List.append_nil]

theorem keyCount_map_replace (d : List (String × Tool)) (k : String) (v : Tool)
    (n : String) :
    keyCount (d.map (fun p => if p.1 = k then (k, v) else p)) n
      = keyCount d n := by
  induction d with
  | nil => rfl
  | cons p rest ih =>
      unfold keyCount at *
      simp only [List.map_cons, List.filter_cons]
      by_cases hp : p.1 = k
      · rw [if_pos hp]
        by_cases hn : k = n
        · subst hn
          simp [hp, ih]
        · have hpn : ¬p.1 = n := fun h => hn (hp ▸ h)
          simp only [decide_eq_true_eq]
          rw [if_neg hn, if_neg hpn]
          exact ih
      · rw [if_neg hp]
        simp only [decide_eq_true_eq]
        by_cases hpn : p.1 = n
        · rw [if_pos hpn, if_pos hpn]
          simp only [List.length_cons, ih]
        · rw [if_neg hpn, if_neg hpn]
          exact ih

theorem keyCount_append (d d' : List (String × Tool)) (n : String) :
    keyCount (d ++ d') n = keyCount d n + keyCount d' n := by
  unfold keyCount
  rw [List.filter_append, List.length_append]

theorem keyCount_of_any_false (d : List (String × Tool)) (k : String)
    (h : d.any (fun p => p.1 = k) = false) :
    keyCount d k = 0 := by
  induction d with
  | nil => rfl
  | cons p rest ih =>
      simp only [List.any_cons, Bool.or_eq_false_iff] at h
      unfold keyCount
      simp only [List.filter_cons]
      rw [if_neg (by simpa using h.1)]
      exact ih h.2

theorem keyCount_dictInsert_le (d : List (String × Tool)) (k : String)
    (v : Tool) (n : String) (h : keyCount d n ≤ 1) :
    keyCount (dictInsert d k v) n ≤ 1 := by
  unfold dictInsert
  by_cases hany : d.any (fun p => p.1 = k) = true
  · rw [if_pos hany, keyCount_map_replace]; exact h
  · rw [if_neg hany, keyCount_append]
    by_cases hn : k = n
    · subst hn
      rw [keyCount_of_any_false d k (Bool.not_eq_true _ ▸ hany)]
      show 0 + keyCount [(k, v)] k ≤ 1
      unfold keyCount
      simp
    · have : keyCount [(k, v)] n = 0 := by
        unfold keyCount
        simp [hn]
      omega

theorem keyCount_buildRegistry_le (ts : List Tool) (n : String) :
    keyCount (buildRegistry ts) n ≤ 1 := by
  induction ts using List.reverseRecOn with
  | nil => exact Nat.zero_le 1
  | append_singleton ts t ih =>
      rw [buildRegistry_concat]
      exact keyCount_dictInsert_le _ _ _ _ ih

theorem keyCount_pos_of_lookup_some (d : List (String × Tool)) (n : String)
    (t : Tool) (h : lookupTool d n = some t) : 1 ≤ keyCount d n := by
  induction d with
  | nil => cases h
  | cons p rest ih =>
      unfold keyCount
      simp only [List.filter_cons]
      by_cases hp : p.1 = n
      · simp [hp]
      · rw [if_neg (by simpa using hp)]
        apply ih
        show lookupTool rest n = some t
        rw [show lookupTool (p :: rest) n
              = if p.1 = n then some p.2 else lookupTool rest n from rfl,
            if_neg hp] at h
        exact h

theorem dictInsert_keys (d : List (String × Tool))
    (h : ∀ p ∈ d, p.1 = p.2.name) (t : Tool) :
    ∀ p ∈ dictInsert d t.name t, p.1 = p.2.name := by
  unfold dictInsert
  by_cases hany : d.any (fun p => p.1 = t.name) = true
  · rw [if_pos hany]
    intro p hp
    rcases List.mem_map.mp hp with ⟨q, hq, rfl⟩
    by_cases hqk : q.1 = t.name
    · simp [hqk]
    · simp only [if_neg hqk]
      exact h q hq
  · rw [if_neg hany]
    intro p hp
    rcases List.mem_append.mp hp with h1 | h1
    · exact h p h1
    · rcases List.mem_singleton.mp h1 with rfl
      rfl

theorem buildRegistry_keys (ts : List Tool) :
    ∀ p ∈ buildRegistry ts, p.1 = p.2.name := by
  induction ts using List.reverseRecOn with
  | nil => intro p hp; cases hp
  | append_singleton ts t ih =>
      rw [buildRegistry_concat]
      exact dictInsert_keys _ ih t

theorem schemas_filter_length (ts : List Tool) (n : String) :
    ((registrySchemas ts).filter (fun j => schemaName j = some n)).length
      = keyCount (buildRegistry ts) n := by
  unfold registrySchemas keyCount
  rw [List.filter_map, List.length_map]
  congr 1
  apply List.filter_congr
  intro p hp
  have hk := buildRegistry_keys ts p hp
  simp only [Function.comp_apply, schemaName_toFunctionSchema,
    Option.some.injEq, decide_eq_decide]
  constructor
  · intro h; rw [hk, h]
  · intro h; rw [← hk, h]

/-! ### Concrete scenarios used by witnesses and counterexamples -/

/-- A one-iteration configuration. -/
def optsOne : AgentOptions :=
  { model := "gpt-4", max_iterations := 1, system_prompt := "" }

/-- A model that always requests one tool call and nothing else. -/
def llmToolCall : List Msg → AssistantMsg :=
  fun _ => ⟨MsgContent.null, [⟨"call_1", "search_users", Except.ok []⟩]⟩

/-- A model that answers with neither tool calls nor content. -/
def llmSilent : List Msg → AssistantMsg := fun _ => ⟨MsgContent.null, []⟩

/-- A model that immediately answers with text. -/
def llmDone : List Msg → AssistantMsg := fun _ => ⟨MsgContent.str "Done.", []⟩

/-- A tool whose execute always raises. -/
def failTool : Tool :=
  ⟨"boom", "always raises", JsonVal.obj [],
   fun _ => Except.error "RuntimeError"⟩

/-- A tool whose execute always succeeds. -/
def fineTool : Tool :=
  ⟨"fine", "always succeeds", JsonVal.obj [],
   fun _ => Except.ok ⟨true, "ok", none⟩⟩

def callBoom : ToolCall := ⟨"call_1", "boom", Except.ok []⟩

def callGhost : ToolCall := ⟨"call_2", "ghost", Except.ok []⟩

def callFine : ToolCall := ⟨"call_3", "fine", Except.ok []⟩

/-- A model requesting a failing call, an unknown call and a fine call, while
also carrying non-empty text content. -/
def llmMixed : List Msg → AssistantMsg :=
  fun _ => ⟨MsgContent.str "working on it", [callBoom, callGhost, callFine]⟩

/-- Two distinct tools sharing one name. -/
def dupA : Tool :=
  ⟨"dup", "first", JsonVal.obj [], fun _ => Except.ok ⟨true, "A", none⟩⟩

def dupB : Tool :=
  ⟨"dup", "second", JsonVal.obj [], fun _ => Except.ok ⟨true, "B", none⟩⟩

/-- A fresh loop state used by step-level witnesses. -/
def stateQ : LoopState := initState optsOne "q"

/-! ### Claim theorems -/

/-- C1 (code bug): when the model requests a tool call on every iteration the
while loop does exit after `max_iterations` passes, but the epilogue then
evaluates `last_message.role` on the plain tool dict appended last
(agent.py line 101) and raises `AttributeError` instead of returning the
fixed fallback string. Evaluated at `max_iterations = 1` with a model that
always requests `search_users`. -/
theorem run_always_tool_calls_raises :
    run [] optsOne llmToolCall "q"
      = Except.error "AttributeError: dict object has no attribute role" :=
  rfl

/-- C2 counterexample: a run that returns successfully in the
MaxIterationsReached terminal state (the model produced an assistant message
with neither tool calls nor content) and never writes the tools-used log
into the hooks sink — `hooks.metadata` line 113 sits inside the answer
branch only. -/
theorem run_fallback_skips_hooks :
    run [] optsOne llmSilent "q"
      = Except.ok ⟨fallbackMessage 1, 1, true, none⟩ :=
  rfl

/-- C2 amended: the loop writes the tools-used log into the hooks sink before
returning only in the Answer terminal state; a run that returns in the
MaxIterationsReached terminal state leaves the hooks sink untouched. -/
theorem hooks_written_only_on_answer (tools : List Tool)
    (options : AgentOptions) (llm : List Msg → AssistantMsg) (query : String)
    (out : RunOutput)
    (hout : run tools options llm query = Except.ok out) :
    (out.max_iterations_reached = false →
       out.hooks_tools_used
         = some (finalState tools options llm query).tools_used)
    ∧ (out.max_iterations_reached = true → out.hooks_tools_used = none) := by
  unfold run at hout
  split at hout
  · simp at hout
  · split at hout
    · rw [Except.ok.injEq] at hout
      subst hout
      exact ⟨fun _ => rfl, fun h => Bool.noConfusion h⟩
    · rw [Except.ok.injEq] at hout
      subst hout
      exact ⟨fun h => Bool.noConfusion h, fun _ => rfl⟩
  · simp at hout

/-- C2 witness: in an Answer-state run the hooks sink receives the log. -/
theorem hooks_written_only_on_answer_witness :
    run [] optsOne llmDone "q" = Except.ok ⟨"Done.", 1, false, some []⟩
    ∧ (⟨"Done.", 1, false, some []⟩ : RunOutput).hooks_tools_used
        = some (finalState [] optsOne llmDone "q").tools_used :=
  ⟨rfl, (hooks_written_only_on_answer [] optsOne llmDone "q" _ rfl).1 rfl⟩

/-- C3: a dispatched call whose argument deserialization or execution raises
is converted to the failed ToolResult carrying the tool name and stringified
error; the assistant message's whole tool-call list is still dispatched (one
tool turn per sibling, in request order) and the loop is not aborted (`done`
unchanged). -/
theorem tool_failure_isolated (registry : List (String × Tool))
    (llm : List Msg → AssistantMsg) (s : LoopState) (tc : ToolCall)
    (tool : Tool) (e : String)
    (hmem : tc ∈ (llm s.messages).tool_calls)
    (hlk : lookupTool registry tc.name = some tool)
    (herr : tc.arguments = Except.error e ∨
            ∃ args, tc.arguments = Except.ok args ∧
              tool.execute args = Except.error e) :
    executeTool registry tc
        = ⟨false, "Error executing " ++ tc.name ++ ": " ++ e, none⟩
    ∧ (stepIter registry llm s).messages
        = (s.messages ++ [Msg.assistant (llm s.messages)])
          ++ (llm s.messages).tool_calls.map
              (fun c => toolMsg c (executeTool registry c))
    ∧ (stepIter registry llm s).done = s.done := by
  have hne : (llm s.messages).tool_calls ≠ [] := by
    intro h
    rw [h] at hmem
    cases hmem
  refine ⟨?_, ?_, ?_⟩
  · rcases herr with he | ⟨args, ha, he⟩
    · simp only [executeTool, hlk, he]
    · simp only [executeTool, hlk, ha, he]
  · rw [stepIter_toolBranch registry llm s hne]
  · rw [stepIter_toolBranch registry llm s hne]

/-- C3 witness: the failing call `boom` inside a three-call turn. -/
theorem tool_failure_isolated_witness :
    callBoom ∈ (llmMixed stateQ.messages).tool_calls
    ∧ lookupTool (buildRegistry [failTool, fineTool]) callBoom.name
        = some failTool
    ∧ executeTool (buildRegistry [failTool, fineTool]) callBoom
        = ⟨false, "Error executing boom: RuntimeError", none⟩
    ∧ (stepIter (buildRegistry [failTool, fineTool]) llmMixed stateQ).done
        = stateQ.done := by
  have h := tool_failure_isolated (buildRegistry [failTool, fineTool])
    llmMixed stateQ callBoom failTool "RuntimeError" (List.Mem.head _) rfl
    (Or.inr ⟨[], rfl, rfl⟩)
  exact ⟨List.Mem.head _, rfl, h.1, h.2.2⟩

/-- C4: a dispatched call whose name has no registry entry yields exactly the
failed Unknown-tool result without raising; the turn's calls are all still
recorded as tool-turn messages and the loop is not aborted. -/
theorem unknown_tool_result (registry : List (String × Tool))
    (llm : List Msg → AssistantMsg) (s : LoopState) (tc : ToolCall)
    (hmem : tc ∈ (llm s.messages).tool_calls)
    (hlk : lookupTool registry tc.name = none) :
    executeTool registry tc = ⟨false, "Unknown tool: " ++ tc.name, none⟩
    ∧ (stepIter registry llm s).messages
        = (s.messages ++ [Msg.assistant (llm s.messages)])
          ++ (llm s.messages).tool_calls.map
              (fun c => toolMsg c (executeTool registry c))
    ∧ (stepIter registry llm s).done = s.done := by
  have hne : (llm s.messages).tool_calls ≠ [] := by
    intro h
    rw [h] at hmem
    cases hmem
  refine ⟨?_, ?_, ?_⟩
  · simp only [executeTool, hlk]
  · rw [stepIter_toolBranch registry llm s hne]
  · rw [stepIter_toolBranch registry llm s hne]

/-- C4 witness: the unregistered call `ghost` inside a three-call turn. -/
theorem unknown_tool_result_witness :
    callGhost ∈ (llmMixed stateQ.messages).tool_calls
    ∧ lookupTool (buildRegistry [failTool, fineTool]) callGhost.name = none
    ∧ executeTool (buildRegistry [failTool, fineTool]) callGhost
        = ⟨false, "Unknown tool: ghost", none⟩
    ∧ (stepIter (buildRegistry [failTool, fineTool]) llmMixed stateQ).done
        = stateQ.done := by
  have h := unknown_tool_result (buildRegistry [failTool, fineTool]) llmMixed
    stateQ callGhost (List.Mem.tail _ (List.Mem.head _)) rfl
  exact ⟨List.Mem.tail _ (List.Mem.head _), rfl, h.1, h.2.2⟩

/-- C5: when the assistant message carries both a non-empty tool-call list
and truthy content, the loop takes the tool-call branch: the tools are
dispatched (tool turns appended, names logged), `done` stays false, and with
iteration budget remaining the while loop proceeds to the next pass instead
of terminating with the text. -/
theorem tool_calls_take_priority (registry : List (String × Tool))
    (llm : List Msg → AssistantMsg) (maxIter : Nat) (s : LoopState)
    (tc : ToolCall) (rest : List ToolCall)
    (hcalls : (llm s.messages).tool_calls = tc :: rest)
    (_hcontent : (llm s.messages).content.truthy = true)
    (hdone : s.done = false) :
    (stepIter registry llm s).done = false
    ∧ (stepIter registry llm s).tools_used
        = s.tools_used ++ (tc :: rest).map ToolCall.name
    ∧ (stepIter registry llm s).messages
        = (s.messages ++ [Msg.assistant (llm s.messages)])
          ++ (tc :: rest).map (fun c => toolMsg c (executeTool registry c))
    ∧ (s.iteration < maxIter → ∀ fuel,
        loopFuel registry llm maxIter (fuel + 1) s
          = loopFuel registry llm maxIter fuel (stepIter registry llm s)) := by
  have hne : (llm s.messages).tool_calls ≠ [] := by
    rw [hcalls]
    exact List.cons_ne_nil _ _
  have hstep := stepIter_toolBranch registry llm s hne
  refine ⟨?_, ?_, ?_, ?_⟩
  · rw [hstep]
    exact hdone
  · rw [hstep, hcalls]
  · rw [hstep, hcalls]
  · intro hit fuel
    simp only [loopFuel, if_pos (And.intro hdone hit)]

/-- C5 witness: a turn carrying three tool calls and non-empty content. -/
theorem tool_calls_take_priority_witness :
    (llmMixed stateQ.messages).tool_calls = callBoom :: [callGhost, callFine]
    ∧ (llmMixed stateQ.messages).content.truthy = true
    ∧ stateQ.done = false
    ∧ (stepIter (buildRegistry [failTool, fineTool]) llmMixed stateQ).done
        = false
    ∧ (stepIter (buildRegistry [failTool, fineTool]) llmMixed stateQ).tools_used
        = stateQ.tools_used
          ++ (callBoom :: [callGhost, callFine]).map ToolCall.name := by
  have h := tool_calls_take_priority (buildRegistry [failTool, fineTool])
    llmMixed 1 stateQ callBoom [callGhost, callFine] rfl rfl rfl
  exact ⟨rfl, rfl, rfl, h.1, h.2.1⟩

/-- C6: on every run the iteration counter at loop exit is bounded by
`max_iterations`, and whenever the run returns, the reported
`total_iterations` metric equals the number of loop-body passes actually
executed. -/
theorem iteration_bound_and_total (tools : List Tool)
    (options : AgentOptions) (llm : List Msg → AssistantMsg)
    (query : String) :
    (finalState tools options llm query).iteration ≤ options.max_iterations
    ∧ ∀ out : RunOutput, run tools options llm query = Except.ok out →
        out.total_iterations = iterationsExecuted tools options llm query := by
  constructor
  · exact loopFuel_iteration_le _ _ _ _ _ (Nat.zero_le _)
  · intro out hout
    have hiter : (finalState tools options llm query).iteration
        = iterationsExecuted tools options llm query := by
      unfold finalState iterationsExecuted
      rw [loopFuel_iteration_eq_count]
      exact Nat.zero_add _
    rw [← hiter]
    unfold run at hout
    split at hout
    · simp at hout
    · split at hout
      · rw [Except.ok.injEq] at hout
        subst hout
        rfl
      · rw [Except.ok.injEq] at hout
        subst hout
        rfl
    · simp at hout

/-- C6 witness: a one-iteration answering run. -/
theorem iteration_bound_and_total_witness :
    run [] optsOne llmDone "q" = Except.ok ⟨"Done.", 1, false, some []⟩
    ∧ (⟨"Done.", 1, false, some []⟩ : RunOutput).total_iterations
        = iterationsExecuted [] optsOne llmDone "q" :=
  ⟨rfl, (iteration_bound_and_total [] optsOne llmDone "q").2 _ rfl⟩

/-- C7: a first model response with empty tool calls and non-empty plain
string content terminates the run after exactly one iteration; the text is
returned verbatim, the max-iterations flag is off and the (empty) tools-used
log is written into hooks. -/
theorem first_response_text (tools : List Tool) (options : AgentOptions)
    (llm : List Msg → AssistantMsg) (query : String) (t : String)
    (hmax : 1 ≤ options.max_iterations)
    (hcalls : (llm (initMessages options query)).tool_calls = [])
    (hcontent : (llm (initMessages options query)).content = MsgContent.str t)
    (ht : t ≠ "") :
    run tools options llm query = Except.ok ⟨t, 1, false, some []⟩ := by
  have htr : (llm (initMessages options query)).content.truthy = true := by
    rw [hcontent]
    simp [MsgContent.truthy, ht]
  have hstep := stepIter_contentBranch (buildRegistry tools) llm
      (initState options query) hcalls htr
  have hfinal : finalState tools options llm query
      = ⟨initMessages options query
           ++ [Msg.assistant (llm (initMessages options query))], [], true,
         1⟩ := by
    unfold finalState
    obtain ⟨f, hf⟩ : ∃ f, options.max_iterations = f + 1 :=
      ⟨options.max_iterations - 1, by omega⟩
    rw [hf]
    simp only [loopFuel]
    have hguard : (initState options query).done = false ∧
        (initState options query).iteration < f + 1 := ⟨rfl, Nat.succ_pos f⟩
    rw [if_pos hguard, hstep]
    exact loopFuel_of_done _ _ _ _ _ rfl
  have hstr : (MsgContent.str t).truthy = true := by
    simp [MsgContent.truthy, ht]
  unfold run
  rw [hfinal]
  simp [List.getLast?_concat, hcontent, hstr, MsgContent.extractText]

/-- C7 witness: the immediate-answer model at `max_iterations = 1`. -/
theorem first_response_text_witness :
    1 ≤ optsOne.max_iterations
    ∧ (llmDone (initMessages optsOne "q")).tool_calls = []
    ∧ (llmDone (initMessages optsOne "q")).content = MsgContent.str "Done."
    ∧ run [] optsOne llmDone "q" = Except.ok ⟨"Done.", 1, false, some []⟩ :=
  ⟨Nat.le_refl 1, rfl, rfl,
   first_response_text [] optsOne llmDone "q" "Done." (Nat.le_refl 1) rfl rfl
     (by decide)⟩

/-- C8: serializing a ToolResult into the content of a tool-turn message (as
the loop does at agent.py line 87) and parsing that content back yields the
identical success / message / data structure. -/
theorem tool_result_roundtrip (tc : ToolCall) (r : ToolResult) :
    toolMsg tc r = Msg.dict "tool" r.toJson (some tc.id)
    ∧ ToolResult.fromJson? r.toJson = some r := by
  refine ⟨rfl, ?_⟩
  rcases r with ⟨b, m, d⟩
  cases d <;> rfl

/-- C9: when the construction list contains two tools with the same name, the
registry (a Python dict comprehension) silently keeps only the last one:
lookup by that name yields the last such tool, and the schema list advertised
to the model carries exactly one entry for that name. Registry construction
is total, so no error or warning can be raised. -/
theorem duplicate_tool_names_last_wins (tools2 : List Tool) (n : String)
    (hdup : 2 ≤ (tools2.filter (fun t => t.name = n)).length) :
    lookupTool (buildRegistry tools2) n = lastNamed tools2 n
    ∧ ((registrySchemas tools2).filter
         (fun j => schemaName j = some n)).length = 1 := by
  refine ⟨lookup_buildRegistry tools2 n, ?_⟩
  rw [schemas_filter_length]
  have h1 := keyCount_buildRegistry_le tools2 n
  have hne : tools2.filter (fun t => t.name = n) ≠ [] := by
    intro h
    rw [h] at hdup
    simp at hdup
  have hsome : (lastNamed tools2 n).isSome := by
    unfold lastNamed
    rw [List.getLast?_isSome]
    exact hne
  obtain ⟨t, ht⟩ := Option.isSome_iff_exists.mp hsome
  have h2 := keyCount_pos_of_lookup_some (buildRegistry tools2) n t
    (by rw [lookup_buildRegistry]; exact ht)
  omega

/-- C9 witness: two tools named dup; the registry keeps the second. -/
theorem duplicate_tool_names_last_wins_witness :
    2 ≤ ([dupA, dupB].filter (fun t => t.name = "dup")).length
    ∧ lookupTool (buildRegistry [dupA, dupB]) "dup"
        = lastNamed [dupA, dupB] "dup"
    ∧ ((registrySchemas [dupA, dupB]).filter
         (fun j => schemaName j = some "dup")).length = 1
    ∧ lastNamed [dupA, dupB] "dup" = some dupB := by
  have h := duplicate_tool_names_last_wins [dupA, dupB] "dup"
    (by simp [dupA, dupB])
  exact ⟨by simp [dupA, dupB], h.1, h.2, rfl⟩

/-- C10: the tools-used log grows by exactly the requested tool names, in
request order — the equation holds for every registry and every tool
behaviour, so a name missing from the registry or a failing execution is
logged all the same. -/
theorem tools_used_records_requested_names (registry : List (String × Tool))
    (llm : List Msg → AssistantMsg) (s : LoopState) :
    (stepIter registry llm s).tools_used
      = s.tools_used ++ (llm s.messages).tool_calls.map ToolCall.name :=
  stepIter_toolsUsed registry llm s

end AgentLoop
